import Mathlib

/-!
Verification of the refinedc-copilot orchestration core against its code.

The definitions below are shallow embeddings of the TypeScript sources:

* `src/unnamed/part_002` (spec/orchestration.ts, async variant):
  `createInitialAgentState`, `shouldContinue`, `updateState`, and the
  `specAgent`/`runLoop` recursion, modelled by `runLoopExec` and
  `runLoopReturnedState`;
* `src/vscode/src/lib/refinedc.ts`: `classifyRefinedCError`, `extractGoals`;
* `src/legacy/vscode0/src/lib/spec/insertion.ts`: `insertAnnotations`,
  `findAnnotationPoints`;
* `src/unnamed/part_001` (spec/parser.ts): `traverseTree`;
* `src/vscode/src/lib/lemmas.ts`: `generateLemmas` and the per-lemma
  pipeline of `extractAndRunLemmas`.

External effects (LLM completions, the verifier subprocess, the file
system) are abstracted as oracle parameters; machine strings are Lean
`String`/`List Char`; JavaScript promises that may reject are `Except`.
-/

/-- Verification plan tags, from `types.ts` (`VerificationPlanType`). -/
inductive VerificationPlanType where
  | EditSpec
  | StateLemmas
deriving DecidableEq, Repr

/-- Verifier error taxonomy, from `types.ts` (`RefinedCErrorType`). -/
inductive RefinedCErrorType where
  | MalformedSpec
  | NeedsLemmasOrIncorrectImplementation
  | UnfinishedProof
  | FilesystemOrToolError
deriving DecidableEq, Repr

/-- One role-tagged message turn (`Anthropic.MessageParam` in `types.ts`);
only the fields the orchestration state threads around. -/
structure Message where
  role : String
  content : String
deriving DecidableEq, Repr

/-- The loop state, from `types.ts` (`AgentState`). -/
structure AgentState where
  messages : List Message
  jobType : VerificationPlanType
  currentFile : String
  iterations : Nat
  maxIterations : Nat
  completed : Bool
deriving DecidableEq, Repr

/-- From `orchestration.ts` (async variant): `createInitialAgentState`,
with its hard-coded `maxIterations: 20`. -/
def createInitialAgentState (filepath : String) : AgentState :=
  { messages := []
    jobType := VerificationPlanType.EditSpec
    currentFile := filepath
    iterations := 0
    maxIterations := 20
    completed := false }

/-- From `orchestration.ts`:
`!state.completed && state.iterations < state.maxIterations`. -/
def shouldContinue (state : AgentState) : Bool :=
  !state.completed && decide (state.iterations < state.maxIterations)

/-- From `orchestration.ts`: `updateState` returns a fresh record
(`{...state, messages: [...state.messages, ...newMessages],
iterations: state.iterations + 1, completed}`). -/
def updateState (state : AgentState) (newMessages : List Message)
    (completed : Bool := false) : AgentState :=
  { state with
    messages := state.messages ++ newMessages
    iterations := state.iterations + 1
    completed := completed }

/-- Operational model of `runLoop` in `specAgent` (orchestration.ts, async
variant), as observed when the returned task is finally executed.

One call with `shouldContinue state` true performs one traversal of the
Annotating/Verifying cycle (`initProcessFile` or `checkAndHandleError`);
`oracle t` abstracts whether traversal number `t`'s process outcome
resolved `Right` (verifier success) or `Left`.  Both process builders
compute their returned state eagerly as `updateState state []` (the
`messages` captured at construction time are still `[]` because the
completion tasks have not run yet), so that is the state the recursion
continues from on the error path.  The result is the pair (outcome task
resolved `Right`?, number of traversals started). -/
def runLoopExec (oracle : Nat → Bool) (state : AgentState) (t : Nat) :
    Bool × Nat :=
  if h : shouldContinue state = true then
    if oracle t then
      (true, 1)
    else
      if h2 : shouldContinue (updateState state []) = true then
        let r := runLoopExec oracle (updateState state []) (t + 1)
        (r.1, r.2 + 1)
      else
        (false, 1)
  else
    (true, 0)
termination_by state.maxIterations - state.iterations
decreasing_by
  simp only [shouldContinue, updateState, Bool.and_eq_true, Bool.not_eq_true',
    decide_eq_true_eq] at h h2
  simp only [updateState]
  omega

/-- The `AgentState` component of the pair `runLoop` returns to its caller.
The tuple `[outcome, finalState]` is built before the lazy `outcome` task
ever runs, so it captures `processTask.state = updateState(state, [])`;
the later rebindings of the local `finalState` inside the `TE.fold`
callbacks cannot reach the already-returned tuple. -/
def runLoopReturnedState (state : AgentState) : AgentState :=
  if shouldContinue state = true then updateState state [] else state

/-- The characters JavaScript regards as whitespace (`\s`, and the set
`String.prototype.trim` strips); the Unicode space family beyond NBSP and
the BOM is omitted, no input in this development contains it. -/
def isJsWs (c : Char) : Bool :=
  c = ' ' || c = '\t' || c = '\n' || c = '\r' || c = '\x0b' || c = '\x0c' ||
  c = '\u00A0' || c = '\uFEFF'

/-- Kinds of annotation points, from `types.ts` (`AnnotationPointType`). -/
inductive AnnotationPointType where
  | Function
  | Loop
deriving DecidableEq, Repr

/-- An insertion point, from `types.ts` (`AnnotationPoint`). -/
structure AnnotationPoint where
  name : Option String
  startIndex : Nat
  type : AnnotationPointType
  body : String
deriving DecidableEq, Repr

/-- A generated annotation bound to a point, from `types.ts`
(the interface named `Annotation` there). -/
structure AnnotationEntry where
  point : AnnotationPoint
  content : String
  description : Option String := none
deriving DecidableEq, Repr

/-- Index of the last occurrence of a newline in a character list. -/
def lastNl : List Char → Option Nat
  | [] => none
  | c :: rest =>
    match lastNl rest with
    | some i => some (i + 1)
    | none => if c = '\n' then some 0 else none

/-- JavaScript `result.lastIndexOf("\n", p)`: the largest index `i ≤ p`
holding a newline (`none` for the JavaScript result -1). -/
def lastNlLE (cs : List Char) (p : Nat) : Option Nat :=
  lastNl (cs.take (p + 1))

/-- JavaScript `String.prototype.substring(a, b)`: clamps both arguments
to the string length and swaps them when `a > b`. -/
def jsSubstring (cs : List Char) (a b : Nat) : List Char :=
  let a' := min a cs.length
  let b' := min b cs.length
  ((cs.drop (min a' b')).take (max a' b' - min a' b'))

/-- Start of the line containing `p`, as `insertAnnotations` computes it:
`lastIndexOf("\n", p)` plus one, or 0 when there is no newline before. -/
def lineStartAt (cs : List Char) (p : Nat) : Nat :=
  match lastNlLE cs p with
  | none => 0
  | some i => i + 1

/-- The indentation `insertAnnotations` extracts for position `p`: the
whitespace prefix (`/^\s*/`) of the text from the line start up to `p`. -/
def indentAt (cs : List Char) (p : Nat) : List Char :=
  (jsSubstring cs (lineStartAt cs p) p).takeWhile isJsWs

/-- JavaScript `pat` is a prefix of `s` (character-list form). -/
def startsWithSeg : List Char → List Char → Bool
  | [], _ => true
  | _ :: _, [] => false
  | c :: ps, d :: ds => c = d && startsWithSeg ps ds

/-- Whether the text begins with the literal opening `[[rc::` of the
existing-annotation pattern `/^((?:\[\[rc::.*?\]\]\s*)+)/`. -/
def startsWithRc (l : List Char) : Bool :=
  startsWithSeg "[[rc::".data l

/-- Offset of the first `]]` reachable by the lazy `.*?`: the earliest
position where `]]` matches, failing on a newline first (`.` excludes
line terminators, so the lazy gap cannot cross one). -/
def findRcClose : List Char → Option Nat
  | [] => none
  | c :: rest =>
    if c = ']' ∧ rest.head? = some ']' then some 0
    else if c = '\n' then none
    else (findRcClose rest).map (· + 1)

/-- Length of the leading JavaScript-whitespace run (`\s*`, greedy). -/
def wsRunLen (l : List Char) : Nat :=
  (l.takeWhile isJsWs).length

/-- Length matched by one iteration `\[\[rc::.*?\]\]\s*` of the
existing-annotation regex, or `none` when the iteration fails. -/
def rcBlockOnceLen (l : List Char) : Option Nat :=
  if startsWithRc l then
    (findRcClose (l.drop 6)).map (fun j => 6 + j + 2 + wsRunLen (l.drop (6 + j + 2)))
  else none

/-- Greedy repetition of further iterations; each successful iteration
consumes at least 8 characters, so fuel equal to the text length never
runs out before the regex's `+` would stop. -/
def rcRunAux : Nat → List Char → Nat
  | 0, _ => 0
  | fuel + 1, l =>
    match rcBlockOnceLen l with
    | none => 0
    | some k => k + rcRunAux fuel (l.drop k)

/-- Total length matched by `/^((?:\[\[rc::.*?\]\]\s*)+)/` at the start of
the text, `none` when the regex does not match (zero iterations). -/
def rcMatchLen (l : List Char) : Option Nat :=
  (rcBlockOnceLen l).map (fun k => k + rcRunAux l.length (l.drop k))

/-- JavaScript `content.split("\n")` on character lists. -/
def splitNl : List Char → List (List Char)
  | [] => [[]]
  | c :: rest =>
    if c = '\n' then [] :: splitNl rest
    else
      match splitNl rest with
      | [] => [[c]]
      | l :: ls => (c :: l) :: ls

/-- JavaScript `lines.join("\n")` on character lists. -/
def joinNl : List (List Char) → List Char
  | [] => []
  | [l] => l
  | l :: ls => l ++ '\n' :: joinNl ls

/-- JavaScript `content.endsWith("\n")`. -/
def endsWithNl (cs : List Char) : Bool :=
  match cs.getLast? with
  | some c => c = '\n'
  | none => false

/-- The re-indentation step of `insertAnnotations`: each nonempty line
gets the indentation prepended (`line ? indentation + line : line`). -/
def indentContent (ind : List Char) (content : List Char) : List Char :=
  joinNl ((splitNl content).map (fun l => if l = [] then l else ind ++ l))

/-- One iteration of the `insertAnnotations` loop
(`src/legacy/vscode0/src/lib/spec/insertion.ts`, lines 33-80): compute
the line's indentation, match any existing `[[rc::...]]` block run at the
point, ensure a trailing newline, re-indent, and splice (replacing the
matched run when there is one). -/
def spliceAnnot (res : List Char) (point : AnnotationPoint)
    (content : String) : List Char :=
  let p := point.startIndex
  let ind := indentAt res p
  let formatted :=
    if endsWithNl content.data then content.data else content.data ++ ['\n']
  let indented := indentContent ind formatted
  match rcMatchLen (res.drop p) with
  | some k => res.take p ++ indented ++ res.drop (p + k)
  | none => res.take p ++ indented ++ res.drop p

/-- Stable insertion into a descending-sorted list: `x` goes after every
element whose key is `≥` its own, matching what a stable JavaScript
`sort((a, b) => b.key - a.key)` does with elements earlier in the input. -/
def insertDesc {α : Type} (key : α → Nat) (x : α) : List α → List α
  | [] => [x]
  | y :: ys => if key x ≤ key y then y :: insertDesc key x ys else x :: y :: ys

/-- Stable descending sort by a numeric key.  ECMAScript `Array.prototype.sort`
with a consistent comparator is stable, which determines its output
uniquely, so this insertion sort computes exactly the source's
`[...xs].sort((a, b) => b.key - a.key)`. -/
def sortDescBy {α : Type} (key : α → Nat) (l : List α) : List α :=
  l.foldl (fun acc x => insertDesc key x acc) []

/-- From `insertion.ts`: sort the annotations by descending point position,
then splice each in turn. -/
def insertAnnotations (code : String) (anns : List AnnotationEntry) : String :=
  String.mk
    ((sortDescBy (fun a => a.point.startIndex) anns).foldl
      (fun res a => spliceAnnot res a.point a.content) code.data)

mutual
/-- A tree-sitter syntax node: node type, `startIndex`, `text`, children.
Parsing C into this tree is the external black box; the locator's
traversal below is the code under verification. -/
inductive RawNode : Type where
  | mk : String → Nat → String → RawChildren → RawNode
/-- The ordered children of a node, each optionally carrying the
tree-sitter field name it is attached under. -/
inductive RawChildren : Type where
  | nil : RawChildren
  | cons : Option String → RawNode → RawChildren → RawChildren
end

/-- Node type of a tree-sitter node. -/
def RawNode.ty : RawNode → String
  | .mk t _ _ _ => t

/-- The `startIndex` (offset of the node's first character). -/
def RawNode.startIndex : RawNode → Nat
  | .mk _ i _ _ => i

/-- The node's verbatim source text. -/
def RawNode.text : RawNode → String
  | .mk _ _ tx _ => tx

/-- The node's child list. -/
def RawNode.children : RawNode → RawChildren
  | .mk _ _ _ cs => cs

/-- Tree-sitter `childForFieldName`: first child carrying the field name. -/
def RawChildren.fieldLookup : RawChildren → String → Option RawNode
  | .nil, _ => none
  | .cons tag n rest, f => if tag = some f then some n else rest.fieldLookup f

/-- The function-name extraction of `traverseTree` (parser.ts, lines
26-31): field `declarator`, then its field `declarator`, defaulting to
"TODO placeholder" when absent or when the text is empty (falsy). -/
def functionNameOf (node : RawNode) : String :=
  match node.children.fieldLookup "declarator" with
  | none => "TODO placeholder"
  | some decl =>
    match decl.children.fieldLookup "declarator" with
    | none => "TODO placeholder"
    | some dd => if dd.text = "" then "TODO placeholder" else dd.text

/-- The body-text extraction of `traverseTree`: field `body`, defaulting
to the empty string. -/
def bodyTextOf (node : RawNode) : String :=
  match node.children.fieldLookup "body" with
  | none => ""
  | some b => b.text

/-- The loop node types `traverseTree` recognizes. -/
def isLoopType (t : String) : Bool :=
  t = "for_statement" || t = "while_statement" || t = "do_statement"

mutual
/-- From `parser.ts` (src/unnamed/part_001, lines 15-74): push one point
for a `function_definition` node, one for a loop node, both at the node's
`startIndex`, then recurse over all children in order. -/
def traverseTree : RawNode → List AnnotationPoint
  | n@(.mk ty si _ cs) =>
    (if ty = "function_definition" then
      [{ name := some (functionNameOf n), startIndex := si,
         type := AnnotationPointType.Function, body := bodyTextOf n }]
    else []) ++
    (if isLoopType ty then
      [{ name := none, startIndex := si,
         type := AnnotationPointType.Loop, body := bodyTextOf n }]
    else []) ++
    traverseChildren cs
/-- The child loop of `traverseTree` (`for (let i = 0; ...) points.concat`). -/
def traverseChildren : RawChildren → List AnnotationPoint
  | .nil => []
  | .cons _ n rest => traverseTree n ++ traverseChildren rest
end

mutual
/-- Specification-side companion of `traverseTree`: the construct nodes
(function definitions and loops) in traversal order. -/
def constructNodes : RawNode → List RawNode
  | n@(.mk ty _ _ cs) =>
    (if ty = "function_definition" || isLoopType ty then [n] else []) ++
    constructChildNodes cs
/-- Construct nodes of a child list, in order. -/
def constructChildNodes : RawChildren → List RawNode
  | .nil => []
  | .cons _ n rest => constructNodes n ++ constructChildNodes rest
end

/-- The point `traverseTree` emits for one construct node. -/
def pointOfNode (n : RawNode) : AnnotationPoint :=
  if n.ty = "function_definition" then
    { name := some (functionNameOf n), startIndex := n.startIndex,
      type := AnnotationPointType.Function, body := bodyTextOf n }
  else
    { name := none, startIndex := n.startIndex,
      type := AnnotationPointType.Loop, body := bodyTextOf n }

/-- From `insertion.ts` (legacy, lines 8-21): parse (external), traverse,
and sort the points by descending `startIndex`.  The `try/catch` around
the external parser is out of scope, the function takes the tree. -/
def findAnnotationPoints (root : RawNode) : List AnnotationPoint :=
  sortDescBy (fun p => p.startIndex) (traverseTree root)

/-- JavaScript `s.includes(pat)`: case-sensitive substring containment. -/
def occursIn (pat : List Char) : List Char → Bool
  | [] => startsWithSeg pat []
  | d :: ds => startsWithSeg pat (d :: ds) || occursIn pat ds

/-- The mathematical statement that `pat` occurs inside `s`. -/
def containsSeg (pat s : List Char) : Prop :=
  ∃ a b, s = a ++ pat ++ b

/-- From `refinedc.ts` (src/vscode/src/lib, lines 14-22): stderr containing
the literal `"Cannot solve side condition"` (a case-sensitive
`String.prototype.includes` test) classifies as
`NeedsLemmasOrIncorrectImplementation`, everything else as
`MalformedSpec`. -/
def classifyRefinedCError (stderr : String) (_exitcode : Int) :
    RefinedCErrorType :=
  if occursIn "Cannot solve side condition".data stderr.data then
    RefinedCErrorType.NeedsLemmasOrIncorrectImplementation
  else
    RefinedCErrorType.MalformedSpec

/-- Index of the first occurrence of `pat` in `s`, scanning left to right
(the regex engine's search for the earliest match start). -/
def findSegIdx (pat : List Char) : List Char → Option Nat
  | [] => if startsWithSeg pat [] then some 0 else none
  | d :: ds =>
    if startsWithSeg pat (d :: ds) then some 0
    else (findSegIdx pat ds).map (· + 1)

/-- JavaScript `String.prototype.trim`: strip whitespace on both ends. -/
def trimJs (l : List Char) : List Char :=
  ((l.dropWhile isJsWs).reverse.dropWhile isJsWs).reverse

/-- The scan of `extractGoals`'s `matchAll(/Goal:\n([\s\S]*?)\n\n/g)`: find
the next `"Goal:\n"` marker, lazily capture up to the first blank line
(`"\n\n"`), continue after it; captures that are empty strings are falsy
and skipped by `if (match[1])`.  Each match consumes at least 8
characters, so fuel equal to the text length never runs out early. -/
def goalScanAux : Nat → List Char → List (List Char)
  | 0, _ => []
  | fuel + 1, s =>
    match findSegIdx "Goal:\n".data s with
    | none => []
    | some i =>
      let rest := s.drop (i + 6)
      match findSegIdx "\n\n".data rest with
      | none => []
      | some j =>
        let tailGoals := goalScanAux fuel (rest.drop (j + 2))
        if rest.take j = [] then tailGoals else trimJs (rest.take j) :: tailGoals

/-- From `refinedc.ts` (lines 24-36): collect the trimmed goal texts in
encounter order. -/
def extractGoals (stderr : String) : List String :=
  (goalScanAux stderr.data.length stderr.data).map String.mk

/-- A failed completion call (`CompletionError` wrapping transport or API
failures). -/
structure CompletionError where
  message : String
deriving DecidableEq, Repr

/-- From `lemmas.ts` (lines 16-45): one completion request per goal; every
per-goal promise rejects on its goal's completion failure, and the results
are joined with `Promise.all`, which rejects the whole batch as soon as
any one promise rejects.  `complete` abstracts the LLM backend. -/
def generateLemmas (complete : String → Except CompletionError String) :
    List String → Except CompletionError (List String)
  | [] => Except.ok []
  | g :: gs =>
    match complete g with
    | Except.error e => Except.error e
    | Except.ok stmt =>
      match generateLemmas complete gs with
      | Except.error e => Except.error e
      | Except.ok rest => Except.ok (stmt :: rest)

/-- Proof-checker error taxonomy, from `types.ts` (`CoqErrorType`). -/
inductive CoqErrorType where
  | SyntaxError
  | IncompleteProof
  | HasAdmittedKind
  | UnknownErrorType
  | FileSystemError
deriving DecidableEq, Repr

/-- A proof-checker error, from `types.ts` (`CoqError`). -/
structure CoqError where
  type : CoqErrorType
  stdout : String
  stderr : String
  exitcode : Int
deriving DecidableEq, Repr

/-- From `lemmas.ts`: wrap an extraction failure as a
`FileSystemError`-kind CoqError. -/
def parseErrorToCoqError (miscParseError : String) : CoqError :=
  { type := CoqErrorType.FileSystemError, stdout := "",
    stderr := miscParseError, exitcode := 1 }

/-- From `lemmas.ts`: wrap a file-IO failure as a `FileSystemError`-kind
CoqError. -/
def fileErrorToCoqError (miscFileIOError : String) : CoqError :=
  { type := CoqErrorType.FileSystemError, stdout := "",
    stderr := miscFileIOError, exitcode := 1 }

/-- What happened to the per-lemma temporary file during one run of the
pipeline. -/
structure TempFileTrace where
  created : Bool
  removed : Bool
deriving DecidableEq, Repr

/-- The per-lemma branch of `extractAndRunLemmas` (lemmas.ts, lines
200-242), with its external effects abstracted: `extracted` is the
`extractCoqCode` result for this lemma, `writeResult` the outcome of
`createTempFile`'s `fs.writeFile`, and `coqcResult` the checker run.  The
pipeline is `createTempFile` then `TE.chain(runCoqc)` then
`TE.chain(cleanupTempFile)`; a `TE.chain` only runs its continuation on a
`Right`, so a `Left` from `runCoqc` skips the cleanup chain entirely,
while on the success path `cleanupTempFile` always resolves `Right`
because its `unlink` is wrapped in `.catch(() => {})`. -/
def runLemmaPipeline (extracted : Except String String)
    (writeResult : Except String Unit) (coqcResult : Except CoqError Unit) :
    Except CoqError Unit × TempFileTrace :=
  match extracted with
  | Except.error e => (Except.error (parseErrorToCoqError e), ⟨false, false⟩)
  | Except.ok _ =>
    match writeResult with
    | Except.error e => (Except.error (fileErrorToCoqError e), ⟨false, false⟩)
    | Except.ok _ =>
      match coqcResult with
      | Except.error e => (Except.error e, ⟨true, false⟩)
      | Except.ok _ => (Except.ok (), ⟨true, true⟩)

/-- The example source `int add(int a,int b){return a+b;}`. -/
def addSrc : String := "int add(int a,int b)\x7breturn a+b;\x7d"

/-- tree-sitter-c parse of `addSrc`, `parameter_declaration` for `int a`. -/
def addParamA : RawNode :=
  RawNode.mk "parameter_declaration" 8 "int a"
    (RawChildren.cons (some "type") (RawNode.mk "primitive_type" 8 "int" RawChildren.nil)
      (RawChildren.cons (some "declarator") (RawNode.mk "identifier" 12 "a" RawChildren.nil)
        RawChildren.nil))

/-- tree-sitter-c parse of `addSrc`, `parameter_declaration` for `int b`. -/
def addParamB : RawNode :=
  RawNode.mk "parameter_declaration" 14 "int b"
    (RawChildren.cons (some "type") (RawNode.mk "primitive_type" 14 "int" RawChildren.nil)
      (RawChildren.cons (some "declarator") (RawNode.mk "identifier" 18 "b" RawChildren.nil)
        RawChildren.nil))

/-- tree-sitter-c parse of `addSrc`, the `parameter_list` node. -/
def addParams : RawNode :=
  RawNode.mk "parameter_list" 7 "(int a,int b)"
    (RawChildren.cons none (RawNode.mk "(" 7 "(" RawChildren.nil)
      (RawChildren.cons none addParamA
        (RawChildren.cons none (RawNode.mk "," 13 "," RawChildren.nil)
          (RawChildren.cons none addParamB
            (RawChildren.cons none (RawNode.mk ")" 19 ")" RawChildren.nil)
              RawChildren.nil)))))

/-- tree-sitter-c parse of `addSrc`, the `function_declarator` node; its
`declarator` field holds the identifier `add` at offset 4. -/
def addDeclarator : RawNode :=
  RawNode.mk "function_declarator" 4 "add(int a,int b)"
    (RawChildren.cons (some "declarator") (RawNode.mk "identifier" 4 "add" RawChildren.nil)
      (RawChildren.cons (some "parameters") addParams RawChildren.nil))

/-- tree-sitter-c parse of `addSrc`, the `a+b` binary expression. -/
def addBinExpr : RawNode :=
  RawNode.mk "binary_expression" 28 "a+b"
    (RawChildren.cons (some "left") (RawNode.mk "identifier" 28 "a" RawChildren.nil)
      (RawChildren.cons none (RawNode.mk "+" 29 "+" RawChildren.nil)
        (RawChildren.cons (some "right") (RawNode.mk "identifier" 30 "b" RawChildren.nil)
          RawChildren.nil)))

/-- tree-sitter-c parse of `addSrc`, the `return a+b;` statement. -/
def addReturnStmt : RawNode :=
  RawNode.mk "return_statement" 21 "return a+b;"
    (RawChildren.cons none (RawNode.mk "return" 21 "return" RawChildren.nil)
      (RawChildren.cons none addBinExpr
        (RawChildren.cons none (RawNode.mk ";" 31 ";" RawChildren.nil)
          RawChildren.nil)))

/-- tree-sitter-c parse of `addSrc`, the `compound_statement` function
body; its opening brace sits at offset 20, so "immediately inside the
opening brace" is offset 21. -/
def addBody : RawNode :=
  RawNode.mk "compound_statement" 20 "\x7breturn a+b;\x7d"
    (RawChildren.cons none (RawNode.mk "\x7b" 20 "\x7b" RawChildren.nil)
      (RawChildren.cons none addReturnStmt
        (RawChildren.cons none (RawNode.mk "\x7d" 32 "\x7d" RawChildren.nil)
          RawChildren.nil)))

/-- tree-sitter-c parse of `addSrc`, the `function_definition` node,
starting at offset 0. -/
def addFuncDef : RawNode :=
  RawNode.mk "function_definition" 0 "int add(int a,int b)\x7breturn a+b;\x7d"
    (RawChildren.cons (some "type") (RawNode.mk "primitive_type" 0 "int" RawChildren.nil)
      (RawChildren.cons (some "declarator") addDeclarator
        (RawChildren.cons (some "body") addBody RawChildren.nil)))

/-- tree-sitter-c parse of `addSrc`, the root `translation_unit`. -/
def addTree : RawNode :=
  RawNode.mk "translation_unit" 0 "int add(int a,int b)\x7breturn a+b;\x7d"
    (RawChildren.cons none addFuncDef RawChildren.nil)

/-- C10: `updateState(s, ms, c)` preserves `currentFile`, `maxIterations`
and `jobType`, appends `ms` to the messages, increments `iterations`, and
sets `completed` to `c`.  The source builds a fresh object with spreads
(`{...state, messages: [...state.messages, ...newMessages], ...}`), so the
input state is left untouched; the embedding is accordingly a pure
function of `s`. -/
theorem updateState_frame (s : AgentState) (ms : List Message) (c : Bool) :
    (updateState s ms c).currentFile = s.currentFile ∧
    (updateState s ms c).maxIterations = s.maxIterations ∧
    (updateState s ms c).jobType = s.jobType ∧
    (updateState s ms c).messages = s.messages ++ ms ∧
    (updateState s ms c).iterations = s.iterations + 1 ∧
    (updateState s ms c).completed = c :=
  ⟨rfl, rfl, rfl, rfl, rfl, rfl⟩

/-- C1: for every oracle of verifier/completion outcomes, the loop starts
at most `maxIterations - iterations` traversals of the
Annotating/Verifying cycle (so at most `k` from the initial state with
`iterations = 0`), and starts none at all once `completed` is set or the
budget is exhausted. -/
theorem runLoop_budget_bound (oracle : Nat → Bool) (s : AgentState) (t : Nat) :
    (runLoopExec oracle s t).2 ≤ s.maxIterations - s.iterations ∧
    (s.completed = true ∨ s.maxIterations ≤ s.iterations →
      (runLoopExec oracle s t).2 = 0) := by
  induction s, t using runLoopExec.induct oracle with
  | case1 s t h ho =>
      have h' : s.completed = false ∧ s.iterations < s.maxIterations := by
        simpa [shouldContinue] using h
      rw [runLoopExec]
      simp only [h, ho, dif_pos, if_pos]
      refine ⟨by omega, ?_⟩
      rintro (hc | hm)
      · exact absurd hc (by simp [h'.1])
      · omega
  | case2 s t h ho h2 ih =>
      have h' : s.completed = false ∧ s.iterations < s.maxIterations := by
        simpa [shouldContinue] using h
      have hup1 : (updateState s []).iterations = s.iterations + 1 := rfl
      have hup2 : (updateState s []).maxIterations = s.maxIterations := rfl
      rw [runLoopExec]
      simp only [h, ho, h2, dif_pos, if_neg, Bool.not_eq_true]
      refine ⟨?_, ?_⟩
      · have := ih.1
        simp only [hup1, hup2] at this
        omega
      · rintro (hc | hm)
        · exact absurd hc (by simp [h'.1])
        · omega
  | case3 s t h ho h2 =>
      have h' : s.completed = false ∧ s.iterations < s.maxIterations := by
        simpa [shouldContinue] using h
      rw [runLoopExec]
      simp only [h, ho, h2, dif_pos, if_neg, Bool.not_eq_true, dif_neg]
      refine ⟨by omega, ?_⟩
      rintro (hc | hm)
      · exact absurd hc (by simp [h'.1])
      · omega
  | case4 s t h =>
      rw [runLoopExec]
      simp [h]

/-- Witness for C1 at a concrete completed state: no traversal starts. -/
theorem runLoop_budget_bound_witness :
    (runLoopExec (fun _ => false)
      { messages := [], jobType := VerificationPlanType.EditSpec,
        currentFile := "f.c", iterations := 3, maxIterations := 3,
        completed := true } 0).2 = 0 ∧
    (runLoopExec (fun _ => false)
      { messages := [], jobType := VerificationPlanType.EditSpec,
        currentFile := "f.c", iterations := 3, maxIterations := 3,
        completed := true } 0).2 ≤ 3 - 3 :=
  ⟨(runLoop_budget_bound (fun _ => false) _ 0).2 (Or.inl rfl),
   (runLoop_budget_bound (fun _ => false) _ 0).1⟩

/-- C2 (code bug): when the verifier succeeds on the very first Verifying
step, the loop does stop after traversal 1 with a `Right` outcome, but the
`AgentState` handed back to the caller (`specsLoop.ts` `run`) is
`updateState(initial, [])`, which has `completed = false` and
`iterations = 1` — the `finalState = updateState(finalState, [], true)`
rebinding in the success callback happens after the tuple was returned and
only changes a local variable. -/
theorem specAgent_first_success_returns_uncompleted :
    runLoopExec (fun _ => true) (createInitialAgentState "test.c") 0 =
      (true, 1) ∧
    (runLoopReturnedState (createInitialAgentState "test.c")).completed =
      false ∧
    (runLoopReturnedState (createInitialAgentState "test.c")).iterations =
      1 := by
  rw [runLoopExec]
  refine ⟨by norm_num [shouldContinue, createInitialAgentState], ?_, ?_⟩ <;>
    simp [runLoopReturnedState, shouldContinue, createInitialAgentState,
      updateState]

/-- Membership in a stable descending insertion. -/
theorem mem_insertDesc {α : Type} (key : α → Nat) (x a : α) :
    ∀ l : List α, a ∈ insertDesc key x l ↔ a = x ∨ a ∈ l := by
  intro l
  induction l with
  | nil => simp [insertDesc]
  | cons y ys ih =>
      by_cases h : key x ≤ key y
      · simp only [insertDesc, if_pos h, List.mem_cons, ih]
        try tauto
      · simp only [insertDesc, if_neg h, List.mem_cons]
        try tauto

/-- Inserting keeps the list descending-sorted by the key. -/
theorem insertDesc_pairwise {α : Type} (key : α → Nat) (x : α) :
    ∀ l : List α, l.Pairwise (fun a b => key b ≤ key a) →
      (insertDesc key x l).Pairwise (fun a b => key b ≤ key a) := by
  intro l
  induction l with
  | nil => simp [insertDesc]
  | cons y ys ih =>
      intro hp
      rw [List.pairwise_cons] at hp
      by_cases h : key x ≤ key y
      · rw [insertDesc, if_pos h, List.pairwise_cons]
        refine ⟨?_, ih hp.2⟩
        intro z hz
        rcases (mem_insertDesc key x z ys).mp hz with hzx | hzy
        · exact hzx ▸ h
        · exact hp.1 z hzy
      · rw [insertDesc, if_neg h, List.pairwise_cons]
        refine ⟨?_, List.pairwise_cons.mpr hp⟩
        intro z hz
        rcases List.mem_cons.mp hz with hzy | hzys
        · subst hzy
          omega
        · exact le_trans (hp.1 z hzys) (by omega)

/-- Inserting is a permutation of consing. -/
theorem insertDesc_perm {α : Type} (key : α → Nat) (x : α) :
    ∀ l : List α, (insertDesc key x l).Perm (x :: l) := by
  intro l
  induction l with
  | nil => simp [insertDesc]
  | cons y ys ih =>
      by_cases h : key x ≤ key y
      · rw [insertDesc, if_pos h]
        exact (List.Perm.cons y ih).trans (List.Perm.swap x y ys)
      · rw [insertDesc, if_neg h]

/-- The fold underlying `sortDescBy`, related to its accumulator. -/
theorem sortDescBy_fold_perm {α : Type} (key : α → Nat) :
    ∀ (l acc : List α),
      (l.foldl (fun acc x => insertDesc key x acc) acc).Perm (acc ++ l) := by
  intro l
  induction l with
  | nil => simp
  | cons x xs ih =>
      intro acc
      have h1 := ih (insertDesc key x acc)
      have h2 : (insertDesc key x acc ++ xs).Perm ((x :: acc) ++ xs) :=
        (insertDesc_perm key x acc).append_right xs
      have h3 : ((x :: acc) ++ xs).Perm (acc ++ x :: xs) :=
        List.perm_middle.symm
      exact (h1.trans h2).trans h3

/-- `sortDescBy` permutes its input. -/
theorem sortDescBy_perm {α : Type} (key : α → Nat) (l : List α) :
    (sortDescBy key l).Perm l := by
  simpa using sortDescBy_fold_perm key l []

/-- The fold underlying `sortDescBy` keeps the accumulator sorted. -/
theorem sortDescBy_fold_pairwise {α : Type} (key : α → Nat) :
    ∀ (l acc : List α), acc.Pairwise (fun a b => key b ≤ key a) →
      (l.foldl (fun acc x => insertDesc key x acc) acc).Pairwise
        (fun a b => key b ≤ key a) := by
  intro l
  induction l with
  | nil => exact fun acc h => h
  | cons x xs ih =>
      intro acc hacc
      exact ih (insertDesc key x acc) (insertDesc_pairwise key x acc hacc)

/-- `sortDescBy` sorts descending by the key. -/
theorem sortDescBy_pairwise {α : Type} (key : α → Nat) (l : List α) :
    (sortDescBy key l).Pairwise (fun a b => key b ≤ key a) := by
  exact sortDescBy_fold_pairwise key l [] (by simp)

/-- Two permuted lists with pairwise-distinct keys sort identically:
the descending sort of either is strictly descending, and a strictly
descending reordering of a list is unique. -/
theorem sortDescBy_eq_of_perm {α : Type} (key : α → Nat) (l₁ l₂ : List α)
    (hperm : l₁.Perm l₂)
    (hdist : l₁.Pairwise (fun a b => key a ≠ key b)) :
    sortDescBy key l₁ = sortDescBy key l₂ := by
  have hsym : ∀ {x y : α}, key x ≠ key y → key y ≠ key x := fun h => h.symm
  have hd₁ : (sortDescBy key l₁).Pairwise (fun a b => key a ≠ key b) :=
    (List.Perm.pairwise_iff hsym (sortDescBy_perm key l₁)).mpr hdist
  have hd₂ : (sortDescBy key l₂).Pairwise (fun a b => key a ≠ key b) :=
    (List.Perm.pairwise_iff hsym (sortDescBy_perm key l₂)).mpr
      ((List.Perm.pairwise_iff hsym hperm).mp hdist)
  have hs₁ := (sortDescBy_pairwise key l₁).and hd₁
  have hs₂ := (sortDescBy_pairwise key l₂).and hd₂
  have hstrict₁ : (sortDescBy key l₁).Pairwise
      (fun a b => key b < key a) := hs₁.imp (by omega)
  have hstrict₂ : (sortDescBy key l₂).Pairwise
      (fun a b => key b < key a) := hs₂.imp (by omega)
  have hpp : (sortDescBy key l₁).Perm (sortDescBy key l₂) :=
    ((sortDescBy_perm key l₁).trans hperm).trans (sortDescBy_perm key l₂).symm
  haveI : IsAntisymm α (fun a b => key b < key a) :=
    ⟨fun a b h1 h2 => absurd (lt_trans h1 h2) (lt_irrefl _)⟩
  exact List.eq_of_perm_of_sorted hpp hstrict₁ hstrict₂

/-- C5: for annotations at pairwise distinct positions (in particular any
set of non-overlapping points), `insertAnnotations` returns the same text
for every permutation of the input list — the internal descending sort
normalizes the order before the splicing fold runs. -/
theorem insertAnnotations_order_invariant (code : String)
    (l₁ l₂ : List AnnotationEntry) (hperm : l₁.Perm l₂)
    (hdist : l₁.Pairwise
      (fun a b => a.point.startIndex ≠ b.point.startIndex)) :
    insertAnnotations code l₁ = insertAnnotations code l₂ := by
  unfold insertAnnotations
  rw [sortDescBy_eq_of_perm (fun a => a.point.startIndex) l₁ l₂ hperm hdist]

/-- Witness for C5 on two concrete annotations supplied in both orders. -/
theorem insertAnnotations_order_invariant_witness :
    insertAnnotations "int f();\nint g();\n"
      [{ point := { name := some "f"
                    startIndex := 0
                    type := AnnotationPointType.Function
                    body := "" }
         content := "[[rc::a]]" },
       { point := { name := some "g"
                    startIndex := 9
                    type := AnnotationPointType.Function
                    body := "" }
         content := "[[rc::b]]" }] =
    insertAnnotations "int f();\nint g();\n"
      [{ point := { name := some "g"
                    startIndex := 9
                    type := AnnotationPointType.Function
                    body := "" }
         content := "[[rc::b]]" },
       { point := { name := some "f"
                    startIndex := 0
                    type := AnnotationPointType.Function
                    body := "" }
         content := "[[rc::a]]" }] :=
  insertAnnotations_order_invariant "int f();\nint g();\n" _ _
    (by decide) (by decide)

/-- A prefix test succeeds exactly when the text decomposes accordingly. -/
theorem startsWithSeg_iff (pat : List Char) :
    ∀ s : List Char, startsWithSeg pat s = true ↔ ∃ b, s = pat ++ b := by
  induction pat with
  | nil => intro s; simp [startsWithSeg]
  | cons c ps ih =>
      intro s
      cases s with
      | nil => simp [startsWithSeg]
      | cons d ds =>
          rw [startsWithSeg]
          simp only [Bool.and_eq_true, decide_eq_true_eq, ih ds]
          constructor
          · rintro ⟨rfl, b, rfl⟩
            exact ⟨b, rfl⟩
          · rintro ⟨b, hb⟩
            rw [List.cons_append] at hb
            cases hb
            exact ⟨rfl, b, rfl⟩

/-- JavaScript `includes` computes substring containment. -/
theorem occursIn_iff (pat : List Char) :
    ∀ s : List Char, occursIn pat s = true ↔ containsSeg pat s := by
  intro s
  induction s with
  | nil =>
      rw [occursIn, startsWithSeg_iff]
      unfold containsSeg
      constructor
      · rintro ⟨b, hb⟩
        exact ⟨[], b, hb⟩
      · rintro ⟨a, b, hab⟩
        cases a with
        | nil => exact ⟨b, hab⟩
        | cons x xs => simp at hab
  | cons d ds ih =>
      rw [occursIn]
      simp only [Bool.or_eq_true, startsWithSeg_iff, ih]
      unfold containsSeg
      constructor
      · rintro (⟨b, hb⟩ | ⟨a, b, hab⟩)
        · exact ⟨[], b, hb⟩
        · exact ⟨d :: a, b, by simp [hab]⟩
      · rintro ⟨a, b, hab⟩
        cases a with
        | nil => exact Or.inl ⟨b, hab⟩
        | cons x xs =>
            rw [List.cons_append, List.cons_append] at hab
            cases hab
            exact Or.inr ⟨xs, b, rfl⟩

/-- C6 counterexample: the lowercased trigger string contains the marker
case-insensitively (its lowercase form is the lowercase form of the
trigger), yet the code classifies it `MalformedSpec`, because
`String.prototype.includes` is case-sensitive. -/
theorem classifyRefinedCError_not_case_insensitive :
    classifyRefinedCError "cannot solve side condition" 1 =
      RefinedCErrorType.MalformedSpec ∧
    "cannot solve side condition".data.map Char.toLower =
      "Cannot solve side condition".data.map Char.toLower ∧
    RefinedCErrorType.MalformedSpec ≠
      RefinedCErrorType.NeedsLemmasOrIncorrectImplementation := by
  refine ⟨by decide, by decide, by decide⟩

/-- C6 amended: the classification is case-SENSITIVE substring matching on
stderr; every failing stderr containing the exact substring
`"Cannot solve side condition"` classifies as
`NeedsLemmasOrIncorrectImplementation` and every other failing stderr as
`MalformedSpec`. -/
theorem classifyRefinedCError_exact_substring (stderr : String) (ec : Int) :
    (containsSeg "Cannot solve side condition".data stderr.data →
      classifyRefinedCError stderr ec =
        RefinedCErrorType.NeedsLemmasOrIncorrectImplementation) ∧
    (¬ containsSeg "Cannot solve side condition".data stderr.data →
      classifyRefinedCError stderr ec = RefinedCErrorType.MalformedSpec) := by
  constructor
  · intro h
    unfold classifyRefinedCError
    rw [if_pos ((occursIn_iff _ _).mpr h)]
  · intro h
    unfold classifyRefinedCError
    rw [if_neg]
    intro hocc
    exact h ((occursIn_iff _ _).mp hocc)

/-- Witness for C6's amended theorem on concrete stderr texts. -/
theorem classifyRefinedCError_exact_substring_witness :
    classifyRefinedCError "x Cannot solve side condition y" 1 =
      RefinedCErrorType.NeedsLemmasOrIncorrectImplementation ∧
    classifyRefinedCError "Type error" 1 =
      RefinedCErrorType.MalformedSpec :=
  ⟨(classifyRefinedCError_exact_substring "x Cannot solve side condition y"
      1).1 ⟨"x ".data, " y".data, by decide⟩,
   (classifyRefinedCError_exact_substring "Type error" 1).2
    (fun hc => absurd ((occursIn_iff _ _).mpr hc) (by decide))⟩

/-- The first-occurrence scan fails exactly when `includes` fails. -/
theorem findSegIdx_none_iff (pat : List Char) :
    ∀ s : List Char, findSegIdx pat s = none ↔ occursIn pat s = false := by
  intro s
  induction s with
  | nil =>
      rw [findSegIdx, occursIn]
      cases h : startsWithSeg pat [] <;> simp [h]
  | cons d ds ih =>
      rw [findSegIdx, occursIn]
      cases h : startsWithSeg pat (d :: ds) <;> simp [h, Option.map_eq_none', ih]

/-- Without a marker occurrence the goal scan yields nothing, for any fuel. -/
theorem goalScanAux_no_marker (s : List Char)
    (h : occursIn "Goal:\n".data s = false) :
    ∀ fuel, goalScanAux fuel s = [] := by
  intro fuel
  cases fuel with
  | zero => rfl
  | succ n =>
      rw [goalScanAux, (findSegIdx_none_iff _ s).mpr h]

/-- C7: `extractGoals` is a pure function of stderr collecting, in
encounter order, the trimmed text between each `"Goal:\n"` marker and the
next blank line: a stderr without any well-formed block (no marker, or a
truncated block with no blank-line terminator) yields `[]`, and the
two-block stderr yields exactly its two goals in source order. -/
theorem extractGoals_ordered_and_total :
    (∀ s : String, ¬ containsSeg "Goal:\n".data s.data → extractGoals s = []) ∧
    extractGoals
      "Error: Cannot solve side condition\nGoal:\nfoo <= bar\n\nctx\nGoal:\nbaz\n\n" =
      ["foo <= bar", "baz"] ∧
    extractGoals "Goal:\nfoo <= bar" = [] := by
  refine ⟨?_, by decide, by decide⟩
  intro s h
  have hocc : occursIn "Goal:\n".data s.data = false := by
    cases hoc : occursIn "Goal:\n".data s.data
    · rfl
    · exact absurd ((occursIn_iff _ _).mp hoc) h
  unfold extractGoals
  rw [goalScanAux_no_marker s.data hocc]
  rfl

/-- Witness for C7 on a concrete stderr without any goal marker. -/
theorem extractGoals_ordered_and_total_witness :
    extractGoals "refinedc: type error in spec" = [] :=
  extractGoals_ordered_and_total.1 "refinedc: type error in spec"
    (fun hc => absurd ((occursIn_iff _ _).mpr hc) (by decide))

/-- C8 (code bug): with two goals whose completions fail only on the
first, `generateLemmas` rejects the whole batch (`Promise.all` fails
fast), even though the second goal's completion succeeds; no per-goal
failure report and no lemma statement for the surviving goal is
returned. -/
theorem generateLemmas_aborts_whole_batch :
    generateLemmas
      (fun g => if g = "goal1"
        then (Except.error { message := "completion failed" } :
          Except CompletionError String)
        else Except.ok ("Lemma l : " ++ g ++ "."))
      ["goal1", "goal2"] =
      Except.error { message := "completion failed" } ∧
    (fun g => if g = "goal1"
        then (Except.error { message := "completion failed" } :
          Except CompletionError String)
        else Except.ok ("Lemma l : " ++ g ++ "."))
      "goal2" = Except.ok "Lemma l : goal2." := by
  refine ⟨rfl, rfl⟩

/-- C9 (code bug): when the temporary file has been written and the proof
checker fails, the pipeline's `TE.chain(cleanupTempFile)` never runs (the
chain short-circuits on the checker's `Left`), so the temporary file is
created but not removed on that exit path. -/
theorem runLemmaPipeline_leaks_temp_file_on_checker_failure :
    runLemmaPipeline (Except.ok "Lemma foo : True.") (Except.ok ())
      (Except.error
        { type := CoqErrorType.UnknownErrorType, stdout := ""
          stderr := "Error: something failed", exitcode := 1 }) =
      (Except.error
        { type := CoqErrorType.UnknownErrorType, stdout := ""
          stderr := "Error: something failed", exitcode := 1 },
       { created := true, removed := false }) := by
  rfl

/-- The traversal emits exactly the construct nodes' points: one point per
`function_definition` and one per loop statement, in traversal order,
each carrying the construct node's own `startIndex`. -/
theorem traverseTree_eq_constructNodes :
    ∀ n : RawNode, traverseTree n = (constructNodes n).map pointOfNode := by
  have hloopf : isLoopType "function_definition" = false := by decide
  refine @RawNode.rec
    (fun n => traverseTree n = (constructNodes n).map pointOfNode)
    (fun cs => traverseChildren cs = (constructChildNodes cs).map pointOfNode)
    ?_ ?_ ?_
  · intro ty si tx cs ih
    by_cases hf : ty = "function_definition"
    · subst hf
      simp [traverseTree, constructNodes, hloopf, pointOfNode, RawNode.ty,
        RawNode.startIndex, ih]
    · by_cases hl : isLoopType ty = true
      · simp [traverseTree, constructNodes, hf, hl, pointOfNode, RawNode.ty,
          RawNode.startIndex, ih]
      · simp [traverseTree, constructNodes, hf, hl, ih]
  · rfl
  · intro tag n cs ihn ihcs
    simp [traverseChildren, constructChildNodes, ihn, ihcs]

/-- C3 counterexample: on `int add(int a,int b){return a+b;}` the locator
returns its single Function point at position 0 — the start offset of the
whole `function_definition` — not at 21, the offset immediately inside
the opening brace; patching that point therefore places the annotation
before the construct, not inside the brace. -/
theorem findAnnotationPoints_add_not_inside_brace :
    (findAnnotationPoints addTree).map (fun p => p.startIndex) = [0] ∧
    (0 : Nat) ≠ 21 ∧
    insertAnnotations addSrc
      [{ point := { name := some "add"
                    startIndex := 0
                    type := AnnotationPointType.Function
                    body := "\x7breturn a+b;\x7d" }
         content := "[[ann::x]]\n" }] =
      "[[ann::x]]\nint add(int a,int b)\x7breturn a+b;\x7d" ∧
    ("[[ann::x]]\nint add(int a,int b)\x7breturn a+b;\x7d" : String) ≠
      "int add(int a,int b)\x7b[[ann::x]]\nreturn a+b;\x7d" := by
  refine ⟨by decide, by decide, by decide, by decide⟩

/-- C3 amended: the locator returns exactly one point per function
definition and one per loop construct, each point's position being the
start offset of the construct itself (before its first token, not inside
its opening brace), with the sequence sorted by descending position; the
`add` example yields exactly one Function point with identity "add" at
position 0, and patching it with `"[[ann::x]]\n"` inserts that content at
the start of the function definition with zero added indentation. -/
theorem findAnnotationPoints_construct_starts :
    (∀ n : RawNode, traverseTree n = (constructNodes n).map pointOfNode) ∧
    (∀ n : RawNode, (findAnnotationPoints n).Pairwise
      (fun a b => b.startIndex ≤ a.startIndex)) ∧
    findAnnotationPoints addTree =
      [{ name := some "add"
         startIndex := 0
         type := AnnotationPointType.Function
         body := "\x7breturn a+b;\x7d" }] ∧
    insertAnnotations addSrc
      [{ point := { name := some "add"
                    startIndex := 0
                    type := AnnotationPointType.Function
                    body := "\x7breturn a+b;\x7d" }
         content := "[[ann::x]]\n" }] =
      "[[ann::x]]\nint add(int a,int b)\x7breturn a+b;\x7d" := by
  refine ⟨traverseTree_eq_constructNodes, ?_, by decide, by decide⟩
  intro n
  exact sortDescBy_pairwise (fun p => p.startIndex) (traverseTree n)

theorem startsWithSeg_append_self (pat rest : List Char) :
    startsWithSeg pat (pat ++ rest) = true := by
  induction pat with
  | nil => rfl
  | cons c ps ih => simp [startsWithSeg, ih]

theorem findRcClose_of_clean (rest : List Char) :
    ∀ t : List Char, (∀ ch ∈ t, ch ≠ ']' ∧ ch ≠ '\n') →
      findRcClose (t ++ ']' :: ']' :: rest) = some t.length := by
  intro t
  induction t with
  | nil => intro _; simp [findRcClose]
  | cons c cs ih =>
      intro h
      have hc := h c (List.mem_cons_self c cs)
      rw [List.cons_append, findRcClose]
      rw [if_neg (by simp [hc.1]), if_neg hc.2,
        ih (fun ch hch => h ch (List.mem_cons_of_mem c hch))]
      rfl

theorem takeWhile_nil_of_head (l : List Char)
    (h : ∀ ch, l.head? = some ch → isJsWs ch = false) :
    l.takeWhile isJsWs = [] := by
  cases l with
  | nil => rfl
  | cons c cs => simp [List.takeWhile_cons, h c rfl]

theorem rcRunAux_zero (l : List Char) (h : rcBlockOnceLen l = none) :
    ∀ fuel, rcRunAux fuel l = 0 := by
  intro fuel
  cases fuel with
  | zero => rfl
  | succ n => rw [rcRunAux, h]

theorem rcBlockOnceLen_none_of_not_rc (l : List Char)
    (h : startsWithRc l = false) : rcBlockOnceLen l = none := by
  rw [rcBlockOnceLen, h]
  rfl

theorem rcMatchLen_none_of_not_rc (l : List Char)
    (h : startsWithRc l = false) : rcMatchLen l = none := by
  rw [rcMatchLen, rcBlockOnceLen_none_of_not_rc l h]
  rfl

theorem rcBlockOnceLen_block (t rest : List Char)
    (ht : ∀ ch ∈ t, ch ≠ ']' ∧ ch ≠ '\n')
    (hrest : ∀ ch, rest.head? = some ch → isJsWs ch = false) :
    rcBlockOnceLen (("[[rc::".data ++ t ++ [']', ']']) ++ '\n' :: rest) =
      some (("[[rc::".data ++ t ++ [']', ']']).length + 1) := by
  have hshape : ("[[rc::".data ++ t ++ [']', ']']) ++ '\n' :: rest =
      "[[rc::".data ++ (t ++ ']' :: ']' :: '\n' :: rest) := by
    simp
  have hlen : ("[[rc::".data ++ t ++ [']', ']']).length = 6 + t.length + 2 := by
    simp [List.length_append]
    omega
  rw [rcBlockOnceLen, hshape, startsWithRc, startsWithSeg_append_self,
    if_pos rfl]
  have hdrop6 : ("[[rc::".data ++ (t ++ ']' :: ']' :: '\n' :: rest)).drop 6 =
      t ++ ']' :: ']' :: '\n' :: rest := by
    rfl
  rw [hdrop6, findRcClose_of_clean _ t ht, Option.map_some']
  have hdropb : ("[[rc::".data ++ (t ++ ']' :: ']' :: '\n' :: rest)).drop
      (6 + t.length + 2) = '\n' :: rest := by
    rw [← hshape, ← hlen, List.drop_left]
  rw [hdropb, wsRunLen]
  simp only [List.takeWhile_cons]
  rw [show isJsWs '\n' = true from by decide]
  simp only [if_true]
  rw [takeWhile_nil_of_head rest hrest]
  simp [hlen]
  omega

theorem splitNl_append_nl (t : List Char) (h : ∀ ch ∈ t, ch ≠ '\n') :
    splitNl (t ++ ['\n']) = [t, []] := by
  induction t with
  | nil => rfl
  | cons c cs ih =>
      have hc := h c (List.mem_cons_self c cs)
      rw [List.cons_append, splitNl, if_neg hc,
        ih (fun ch hch => h ch (List.mem_cons_of_mem c hch))]

theorem indentContent_nil_id (t : List Char) (h : ∀ ch ∈ t, ch ≠ '\n') :
    indentContent [] (t ++ ['\n']) = t ++ ['\n'] := by
  rw [indentContent, splitNl_append_nl t h]
  cases t with
  | nil => rfl
  | cons c cs => simp [joinNl]

theorem endsWithNl_rc (pre t : List Char) :
    endsWithNl (pre ++ t ++ [']', ']']) = false := by
  rw [endsWithNl]
  have : (pre ++ t ++ [']', ']']).getLast? = some ']' := by
    rw [show pre ++ t ++ [']', ']'] = (pre ++ t ++ [']']) ++ [']'] from by simp,
      List.getLast?_concat]
  rw [this]
  decide

theorem lastNl_append_single (x : Char) (hx : x ≠ '\n') :
    ∀ l : List Char, lastNl (l ++ [x]) = lastNl l := by
  intro l
  induction l with
  | nil => simp [lastNl, hx]
  | cons c cs ih =>
      rw [List.cons_append, lastNl, ih, lastNl]

theorem lastNl_lt_length : ∀ (l : List Char) (i : Nat),
    lastNl l = some i → i < l.length := by
  intro l
  induction l with
  | nil => intro i h; simp [lastNl] at h
  | cons c cs ih =>
      intro i h
      rw [lastNl] at h
      cases hcs : lastNl cs with
      | some j =>
          rw [hcs] at h
          cases h
          have := ih j hcs
          simp
          omega
      | none =>
          rw [hcs] at h
          by_cases hc : c = '\n'
          · rw [if_pos hc] at h
            cases h
            simp
          · rw [if_neg hc] at h
            cases h

theorem lastNlLE_take_eq (s : List Char) (p : Nat) (hp : p ≤ s.length)
    (hch : ∀ ch, (s.drop p).head? = some ch → ch ≠ '\n') :
    lastNlLE s p = lastNl (s.take p) := by
  rw [lastNlLE]
  rcases Nat.lt_or_ge p s.length with hlt | hge
  · have hdp := List.drop_eq_getElem_cons (l := s) hlt
    have hhd : (s.drop p).head? = some s[p] := by
      rw [hdp]
      rfl
    have hne : s[p] ≠ '\n' := hch _ hhd
    rw [List.take_succ, List.getElem?_eq_getElem hlt]
    exact lastNl_append_single _ hne _
  · have hps : p = s.length := le_antisymm hp hge
    rw [List.take_of_length_le (by omega), List.take_of_length_le (by omega)]

theorem lastNlLE_insert (s r : List Char) (x : Char) (p : Nat)
    (hp : p ≤ s.length) (hx : x ≠ '\n') :
    lastNlLE (s.take p ++ x :: r) p = lastNl (s.take p) := by
  rw [lastNlLE]
  have hlen : (s.take p).length = p := by rw [List.length_take]; omega
  have htake : (s.take p ++ x :: r).take (p + 1) = s.take p ++ [x] := by
    rw [List.take_append_eq_append_take, hlen,
      List.take_of_length_le (by omega), Nat.add_sub_cancel_left]
    rfl
  rw [htake]
  exact lastNl_append_single x hx (s.take p)

theorem lineStartAt_le (cs : List Char) (p : Nat)
    (h : lastNlLE cs p = lastNl (cs.take p)) (hp : p ≤ cs.length) :
    lineStartAt cs p ≤ p := by
  cases hl : lastNl (cs.take p) with
  | none =>
      rw [lineStartAt, h, hl]
      exact Nat.zero_le p
  | some i =>
      rw [lineStartAt, h, hl]
      show i + 1 ≤ p
      have := lastNl_lt_length _ i hl
      rw [List.length_take] at this
      omega

theorem jsSubstring_take (u : List Char) (a b : Nat) (hab : a ≤ b)
    (hb : b ≤ u.length) :
    jsSubstring u a b = (u.take b).drop a := by
  have h1 : min a u.length = a := by omega
  have h2 : min b u.length = b := by omega
  show (u.drop (min (min a u.length) (min b u.length))).take
      (max (min a u.length) (min b u.length) -
        min (min a u.length) (min b u.length)) = (u.take b).drop a
  rw [h1, h2, Nat.min_eq_left hab, Nat.max_eq_right hab, List.take_drop,
    show a + (b - a) = b from by omega]

theorem indentAt_eq_insert (s r : List Char) (x : Char) (p : Nat)
    (hp : p ≤ s.length) (hxw : isJsWs x = false)
    (hch : ∀ ch, (s.drop p).head? = some ch → isJsWs ch = false) :
    indentAt (s.take p ++ x :: r) p = indentAt s p := by
  have hxnl : x ≠ '\n' := by
    intro h
    subst h
    exact absurd hxw (by decide)
  have hchnl : ∀ ch, (s.drop p).head? = some ch → ch ≠ '\n' := by
    intro ch h hh
    subst hh
    exact absurd (hch _ h) (by decide)
  have e1 : lastNlLE (s.take p ++ x :: r) p = lastNl (s.take p) :=
    lastNlLE_insert s r x p hp hxnl
  have e2 : lastNlLE s p = lastNl (s.take p) := lastNlLE_take_eq s p hp hchnl
  have eLS : lineStartAt (s.take p ++ x :: r) p = lineStartAt s p := by
    rw [lineStartAt, lineStartAt, e1, e2]
  have hLle : lineStartAt s p ≤ p := lineStartAt_le s p e2 hp
  rw [indentAt, indentAt, eLS]
  have hlen' : p ≤ (s.take p ++ x :: r).length := by
    rw [List.length_append, List.length_take]
    simp
    omega
  rw [jsSubstring_take _ _ _ hLle hlen', jsSubstring_take _ _ _ hLle hp]
  have htp : (s.take p ++ x :: r).take p = s.take p := by
    apply List.take_left'
    rw [List.length_take]
    omega
  rw [htp]

theorem spliceAnnot_fresh (s : List Char) (pt : AnnotationPoint)
    (c : String)
    (hrc : rcMatchLen (s.drop pt.startIndex) = none)
    (hind : indentAt s pt.startIndex = [])
    (hnl : endsWithNl c.data = false)
    (hnonl : ∀ ch ∈ c.data, ch ≠ '\n') :
    spliceAnnot s pt c =
      s.take pt.startIndex ++ (c.data ++ ['\n']) ++ s.drop pt.startIndex := by
  simp only [spliceAnnot]
  rw [hrc, hind, hnl]
  simp only [Bool.false_eq_true, if_false]
  rw [indentContent_nil_id c.data hnonl]

theorem spliceAnnot_replace (s : List Char) (pt : AnnotationPoint)
    (c : String) (k : Nat)
    (hrc : rcMatchLen (s.drop pt.startIndex) = some k)
    (hind : indentAt s pt.startIndex = [])
    (hnl : endsWithNl c.data = false)
    (hnonl : ∀ ch ∈ c.data, ch ≠ '\n') :
    spliceAnnot s pt c =
      s.take pt.startIndex ++ (c.data ++ ['\n']) ++
        s.drop (pt.startIndex + k) := by
  simp only [spliceAnnot]
  rw [hrc, hind, hnl]
  simp only [Bool.false_eq_true, if_false]
  rw [indentContent_nil_id c.data hnonl]

theorem insertAnnotations_singleton (s : String) (e : AnnotationEntry) :
    insertAnnotations s [e] =
      String.mk (spliceAnnot s.data e.point e.content) := rfl

/-- C4 amended: insertion is idempotent for the contents the patcher is
designed for — a single `[[rc::...]]` annotation block (no newline or `]`
inside) — at a point whose computed indentation is empty and where the
following text neither starts with whitespace nor with another `[[rc::`
opener: the second application recognizes the previously inserted block
via `/^((?:\[\[rc::.*?\]\]\s*)+)/` and replaces it, yielding the same
text.  (Outside these conditions the claim fails, see the
counterexample: non-`[[rc::` content is re-inserted, and the greedy
trailing `\s*` or a nonzero indentation also break the replacement.) -/
theorem insertAnnotations_idempotent_on_rc (s : String)
    (pt : AnnotationPoint) (t : List Char)
    (hp : pt.startIndex ≤ s.length)
    (ht : ∀ ch ∈ t, ch ≠ ']' ∧ ch ≠ '\n')
    (hind : indentAt s.data pt.startIndex = [])
    (hws : ∀ ch, (s.data.drop pt.startIndex).head? = some ch →
      isJsWs ch = false)
    (hrc : startsWithRc (s.data.drop pt.startIndex) = false) :
    insertAnnotations
      (insertAnnotations s
        [{ point := pt
           content := String.mk ("[[rc::".data ++ t ++ [']', ']']) }])
      [{ point := pt
         content := String.mk ("[[rc::".data ++ t ++ [']', ']']) }] =
    insertAnnotations s
      [{ point := pt
         content := String.mk ("[[rc::".data ++ t ++ [']', ']']) }] := by
  set p := pt.startIndex with hpdef
  set c : List Char := "[[rc::".data ++ t ++ [']', ']'] with hcdef
  have hnonl : ∀ ch ∈ c, ch ≠ '\n' := by
    intro ch hch
    rcases List.mem_append.mp hch with hch1 | hch2
    · rcases List.mem_append.mp hch1 with hch3 | hch4
      · intro he
        subst he
        revert hch3
        decide
      · exact (ht ch hch4).2
    · intro he
      subst he
      revert hch2
      decide
  have hnl : endsWithNl (String.mk c).data = false := endsWithNl_rc _ t
  have hlenc : c.length = 6 + t.length + 2 := by
    simp [hcdef, List.length_append]
    omega
  -- first application
  have hrcm : rcMatchLen (s.data.drop p) = none :=
    rcMatchLen_none_of_not_rc _ hrc
  have hfirst : insertAnnotations s
      [{ point := pt, content := String.mk c }] =
      String.mk (s.data.take p ++ (c ++ ['\n']) ++ s.data.drop p) := by
    rw [insertAnnotations_singleton]
    congr 1
    exact spliceAnnot_fresh s.data pt (String.mk c) hrcm hind hnl hnonl
  rw [hfirst]
  -- the patched text and its decompositions
  have hslen : s.data.length = s.length := rfl
  have htplen : (s.data.take p).length = p := by
    rw [List.length_take]
    omega
  have hdropP : (s.data.take p ++ (c ++ ['\n']) ++ s.data.drop p).drop p =
      c ++ '\n' :: s.data.drop p := by
    rw [List.append_assoc, List.drop_left' htplen]
    simp
  have hblock : rcBlockOnceLen (c ++ '\n' :: s.data.drop p) =
      some (c.length + 1) := by
    exact rcBlockOnceLen_block t (s.data.drop p) ht hws
  have hdropC : (c ++ '\n' :: s.data.drop p).drop (c.length + 1) =
      s.data.drop p := by
    have : c ++ '\n' :: s.data.drop p = (c ++ ['\n']) ++ s.data.drop p := by
      simp
    rw [this]
    apply List.drop_left'
    simp
  have hrcm2 : rcMatchLen ((s.data.take p ++ (c ++ ['\n']) ++
      s.data.drop p).drop p) = some (c.length + 1) := by
    rw [hdropP, rcMatchLen, hblock, Option.map_some', hdropC,
      rcRunAux_zero _ (rcBlockOnceLen_none_of_not_rc _ hrc)]
  have hind2 : indentAt (s.data.take p ++ (c ++ ['\n']) ++ s.data.drop p)
      p = [] := by
    have hshape : s.data.take p ++ (c ++ ['\n']) ++ s.data.drop p =
        s.data.take p ++ '[' :: ("[rc::".data ++ t ++ [']', ']'] ++ '\n' ::
          s.data.drop p) := by
      simp [hcdef]
    rw [hshape]
    rw [indentAt_eq_insert s.data _ '[' p hp (by decide) hws]
    exact hind
  -- second application
  rw [insertAnnotations_singleton]
  congr 1
  rw [spliceAnnot_replace _ pt (String.mk c) (c.length + 1) hrcm2
    hind2 hnl hnonl]
  have htake2 : (s.data.take p ++ (c ++ ['\n']) ++ s.data.drop p).take p =
      s.data.take p := by
    rw [List.append_assoc]
    apply List.take_left'
    exact htplen
  have hdrop2 : (s.data.take p ++ (c ++ ['\n']) ++ s.data.drop p).drop
      (p + (c.length + 1)) = s.data.drop p := by
    apply List.drop_left'
    rw [List.length_append, htplen, List.length_append]
    simp
  rw [htake2, hdrop2]

/-- C4 counterexample: idempotence fails for arbitrary content — content
that is not a `[[rc::...]]` block (here `"x"`) is not recognized by the
existing-annotation pattern on the second application, so it is inserted
again rather than replaced. -/
theorem insertAnnotations_not_idempotent_in_general :
    insertAnnotations ""
      [{ point := { name := none
                    startIndex := 0
                    type := AnnotationPointType.Loop
                    body := "" }
         content := "x" }] = "x\n" ∧
    insertAnnotations
      (insertAnnotations ""
        [{ point := { name := none
                      startIndex := 0
                      type := AnnotationPointType.Loop
                      body := "" }
           content := "x" }])
      [{ point := { name := none
                    startIndex := 0
                    type := AnnotationPointType.Loop
                    body := "" }
         content := "x" }] = "x\nx\n" ∧
    ("x\nx\n" : String) ≠ "x\n" := by
  refine ⟨by decide, by decide, by decide⟩

/-- Witness for C4's amended idempotence theorem on concrete input. -/
theorem insertAnnotations_idempotent_on_rc_witness :
    insertAnnotations
      (insertAnnotations "abc"
        [{ point := { name := none
                      startIndex := 0
                      type := AnnotationPointType.Loop
                      body := "" }
           content := String.mk ("[[rc::".data ++ ['x'] ++ [']', ']']) }])
      [{ point := { name := none
                    startIndex := 0
                    type := AnnotationPointType.Loop
                    body := "" }
         content := String.mk ("[[rc::".data ++ ['x'] ++ [']', ']']) }] =
    insertAnnotations "abc"
      [{ point := { name := none
                    startIndex := 0
                    type := AnnotationPointType.Loop
                    body := "" }
         content := String.mk ("[[rc::".data ++ ['x'] ++ [']', ']']) }] :=
  insertAnnotations_idempotent_on_rc "abc"
    { name := none, startIndex := 0, type := AnnotationPointType.Loop,
      body := "" } ['x'] (by decide) (by decide) (by decide)
    (by
      intro ch h
      injection h with h2
      subst h2
      decide)
    (by decide)
